import Mathlib

/-!
Verification model of the mender-flash optimized block-copy engine.

The definitions below are shallow embeddings of the C++ sources:
  - `copyLoop` / `OptimizedWriter.Copy` embed `OptimizedWriter::Copy`
    (src/libflash/optimized_writer.cpp, lines 28-108);
  - `fileOps` embeds the regular-file behaviour of `FileReadWriterSeeker`
    (seek / read / write on an in-memory byte list, POSIX regular-file
    semantics of src/libflash/platformfs.cpp);
  - `LimitedFlushingWriter.Write` embeds
    `LimitedFlushingWriter::Write` (src/libflash/fileio.cpp, lines 62-87);
  - `ioRead` embeds `mender::io::Read` (src/libflash/platformfs.cpp,
    lines 103-122);
  - `IsUBIDevice` embeds `mender::io::IsUBIDevice`
    (src/libflash/platformfs.cpp, lines 219-230).

Bytes are modelled as `Nat` (only equality of byte values matters here).
The source `Reader` is modelled as a script: the list of successive
results its `Read` calls return; a `FileReader` over a file of content
`src` read in blocks of `B` bytes corresponds to the script
`srcScript B src`.  The destination is an abstract device `DstOps`
so that both a regular file and a device whose reads fail can be used.
-/

/-- Copy statistics, mirroring `OptimizedWriter::Statistics`
(blocksWritten_, blocksOmitted_, bytesWritten_, bytesTotal_),
reset at the start of every `Copy` (optimized_writer.cpp lines 29-32). -/
structure Statistics where
  blocksWritten : Nat
  blocksOmitted : Nat
  bytesWritten : Nat
  bytesTotal : Nat
deriving DecidableEq, Repr

/-- The all-zero statistics produced by the reset at the top of `Copy`. -/
def Statistics.zero : Statistics := ⟨0, 0, 0, 0⟩

/-- The distinct error returns of `OptimizedWriter::Copy`, one constructor
per `return` site of optimized_writer.cpp. -/
inductive CopyError where
  /-- line 47: the source read failed; the reader error is propagated. -/
  | readerFail (e : Nat)
  /-- line 50: size of the destination volume not reached, source too short. -/
  | tooShort
  /-- line 57: read returned more bytes than requested (contract fault). -/
  | progBug
  /-- line 61: reached size of the destination volume, source too big. -/
  | tooBig
  /-- line 68: failed to set seek on the destination file. -/
  | seekFail
  /-- line 94: zero write while copying data. -/
  | zeroWrite
  /-- line 97: short write while copying data. -/
  | shortWrite
  /-- line 100: the destination write failed; its error is propagated. -/
  | writeFail (e : Nat)
deriving DecidableEq, Repr

/-- Result of one raw destination read: the bytes deposited into the
caller buffer, and `some e` when the call reported error `e`
(a failing read may still have deposited a prefix). -/
structure DevRead where
  bytes : List Nat
  err : Option Nat
deriving DecidableEq, Repr

/-- Abstract destination device (the `FileReadWriterSeeker` the engine
drives): seek, read and write, each returning a possibly-changed state. -/
structure DstOps (σ : Type) where
  seekSet : σ → Nat → Option Nat × σ
  read : σ → Nat → DevRead × σ
  write : σ → List Nat → Except Nat Nat × σ

/-- Outcome of `OptimizedWriter::Copy`: the returned error (or success),
the statistics accumulated so far, and the final destination state. -/
structure CopyResult (σ : Type) where
  outcome : Except CopyError Unit
  stats : Statistics
  dst : σ

/-- Lines 74-85 of optimized_writer.cpp: the optimized compare-before-write
step.  Returns the skip decision, the compare buffer contents afterwards
and the destination state afterwards.  The skip condition mirrors
`readResult && readResult.value() == readBytes` followed by
`std::equal(rv.begin(), rv.end(), wv.data())`, which compares the FULL
block-size buffers, stale tail bytes included. -/
def compareStep {σ : Type} (ops : DstOps σ) (optimized : Bool)
    (readBytes : Nat) (rv' wv : List Nat) (dst : σ) : Bool × List Nat × σ :=
  if optimized then
    match ops.read dst readBytes with
    | (dr, dst₂) =>
      let wv₂ := dr.bytes ++ wv.drop dr.bytes.length
      (decide (dr.err = none ∧ dr.bytes.length = readBytes ∧ rv' = wv₂), wv₂, dst₂)
  else
    (false, wv, dst)

/-- Lines 87-102 of optimized_writer.cpp: re-seek (result ignored, line 88)
and write the chunk; `.ok` when the write succeeded with the full count,
otherwise the terminal error together with the destination state. -/
def writeStep {σ : Type} (ops : DstOps σ) (position : Nat) (chunk : List Nat)
    (dst : σ) : Except (CopyError × σ) σ :=
  match ops.seekSet dst position with
  | (_, dst₃) =>
    match ops.write dst₃ chunk with
    | (Except.error e, dst₄) => Except.error (CopyError.writeFail e, dst₄)
    | (Except.ok n, dst₄) =>
      if n = chunk.length then Except.ok dst₄
      else if n = 0 then Except.error (CopyError.zeroWrite, dst₄)
      else Except.error (CopyError.shortWrite, dst₄)

/-- The `while (true)` loop of `OptimizedWriter::Copy` (lines 40-106).
`script` lists the successive results of `reader_.Read`; an exhausted
script behaves like a reader at end-of-data (each further read returns
0 bytes).  `rv` and `wv` are the persistent read and compare buffers
(each of length `blockSize`), `flag` is `volumeSizeReached`. -/
def copyLoop {σ : Type} (ops : DstOps σ) (B C : Nat) (optimized : Bool) :
    List (Except Nat (List Nat)) → σ → List Nat → List Nat → Nat →
    Statistics → Bool → CopyResult σ
  | [], dst, _, _, position, stats, flag =>
    let reached := flag || decide (C ≠ 0 ∧ position + B > C)
    if C ≠ 0 ∧ reached = false then ⟨Except.error CopyError.tooShort, stats, dst⟩
    else ⟨Except.ok (), stats, dst⟩
  | Except.error e :: _, dst, _, _, _, stats, _ =>
    ⟨Except.error (CopyError.readerFail e), stats, dst⟩
  | Except.ok chunk :: rest, dst, rv, wv, position, stats, flag =>
    let reached := flag || decide (C ≠ 0 ∧ position + B > C)
    if chunk.length = 0 then
      if C ≠ 0 ∧ reached = false then ⟨Except.error CopyError.tooShort, stats, dst⟩
      else ⟨Except.ok (), stats, dst⟩
    else if B < chunk.length then ⟨Except.error CopyError.progBug, stats, dst⟩
    else if reached then ⟨Except.error CopyError.tooBig, stats, dst⟩
    else
      let rv' := chunk ++ rv.drop chunk.length
      match ops.seekSet dst position with
      | (some _, dst₁) => ⟨Except.error CopyError.seekFail, stats, dst₁⟩
      | (none, dst₁) =>
        match compareStep ops optimized chunk.length rv' wv dst₁ with
        | (true, wv', dst₂) =>
          copyLoop ops B C optimized rest dst₂ rv' wv' (position + chunk.length)
            { stats with
                blocksOmitted := stats.blocksOmitted + 1,
                bytesTotal := stats.bytesTotal + chunk.length } reached
        | (false, wv', dst₂) =>
          match writeStep ops position chunk dst₂ with
          | Except.error (e, dst₄) => ⟨Except.error e, stats, dst₄⟩
          | Except.ok dst₄ =>
            copyLoop ops B C optimized rest dst₄ rv' wv' (position + chunk.length)
              { stats with
                  blocksWritten := stats.blocksWritten + 1,
                  bytesWritten := stats.bytesWritten + chunk.length,
                  bytesTotal := stats.bytesTotal + chunk.length } reached

namespace OptimizedWriter

/-- `OptimizedWriter::Copy` entry point: resets the statistics (the
`prev` statistics of the engine instance are discarded, lines 29-32),
allocates the two zero-filled block buffers (lines 34-35) and runs the
loop from position 0 with `volumeSizeReached = false`. -/
def Copy {σ : Type} (ops : DstOps σ) (blockSize volumeSize : Nat)
    (optimized : Bool) (_prev : Statistics)
    (script : List (Except Nat (List Nat))) (dst : σ) : CopyResult σ :=
  copyLoop ops blockSize volumeSize optimized script dst
    (List.replicate blockSize 0) (List.replicate blockSize 0) 0 Statistics.zero false

end OptimizedWriter

/-- In-memory regular file: its byte content and the shared file position
(one handle shared by reads, writes and seeks, as in the sources). -/
structure FileState where
  data : List Nat
  pos : Nat
deriving DecidableEq, Repr

/-- POSIX write of `chunk` at offset `pos` into a regular file: bytes up
to `pos` are kept (zero-filled when the file is shorter), the chunk
overwrites from `pos` on, the tail beyond it is kept. -/
def fileWriteAt (data : List Nat) (pos : Nat) (chunk : List Nat) : List Nat :=
  data.take pos ++ List.replicate (pos - data.length) 0 ++ chunk
    ++ data.drop (pos + chunk.length)

/-- Destination operations of a regular file.  `read` returns
`min(requested, size - pos)` bytes, as `mender::io::Read` does on a
regular file (it loops until the buffer is full or end-of-data);
`write` always writes the full chunk and returns its length. -/
def fileOps : DstOps FileState where
  seekSet := fun s p => (none, ⟨s.data, p⟩)
  read := fun s n =>
    let bytes := (s.data.drop s.pos).take n
    (⟨bytes, none⟩, ⟨s.data, s.pos + bytes.length⟩)
  write := fun s c =>
    (Except.ok c.length, ⟨fileWriteAt s.data s.pos c, s.pos + c.length⟩)

/-- A destination identical to a regular file except that every read
fails with error `e` without depositing any bytes (a device whose
read-back is unsupported). -/
def errReadOps (e : Nat) : DstOps FileState :=
  { fileOps with read := fun s _ => (⟨[], some e⟩, s) }

/-- `chunksOfAux B fuel l` splits `l` into successive blocks of at most
`B` bytes; `fuel ≥ l.length` suffices whenever `0 < B`. -/
def chunksOfAux (B : Nat) : Nat → List Nat → List (List Nat)
  | 0, _ => []
  | fuel + 1, l => if l = [] then [] else l.take B :: chunksOfAux B fuel (l.drop B)

/-- The successive chunks a `FileReader` over content `l` delivers when
read in requests of `B` bytes each. -/
def chunksOf (B : Nat) (l : List Nat) : List (List Nat) :=
  chunksOfAux B (l.length + 1) l

/-- Reader script of a regular-file source of content `src`, block size `B`. -/
def srcScript (B : Nat) (src : List Nat) : List (Except Nat (List Nat)) :=
  (chunksOf B src).map Except.ok

/-- Copy from a regular-file source `src` onto a regular-file destination
of initial content `dstData`, with block size `B` and volume size `C`. -/
def copyFile (B C : Nat) (optimized : Bool) (src dstData : List Nat) :
    CopyResult FileState :=
  OptimizedWriter.Copy fileOps B C optimized Statistics.zero
    (srcScript B src) ⟨dstData, 0⟩

/-- Bytes a reader script delivers before its first end-of-data or error:
on a successful copy this is exactly what the engine consumed. -/
def srcConsumed : List (Except Nat (List Nat)) → Nat
  | [] => 0
  | Except.error _ :: _ => 0
  | Except.ok c :: rest => if c.length = 0 then 0 else c.length + srcConsumed rest

/-- The error returns of `LimitedFlushingWriter::Write`
(src/libflash/fileio.cpp lines 62-87): the capacity check at line 69
and the flush failure at line 80. -/
inductive WriteError where
  | capacityExceeded
  | flushFailed (e : Nat)
deriving DecidableEq, Repr

/-- `LimitedFlushingWriter` state: the wrapped file handle, the byte
limit `mWritingLimit`, the flush interval `mFlushIntervalBytes`, the
unflushed-byte counter `mUnflushedBytesWritten`, plus an observation
counter of `mender::io::Flush` calls issued (for stating when a
durability flush happens). -/
structure LimitedFlushingWriter where
  fd : FileState
  mWritingLimit : Nat
  mFlushIntervalBytes : Nat
  mUnflushedBytesWritten : Nat
  flushesIssued : Nat
deriving DecidableEq, Repr

/-- `LimitedFlushingWriter::Write` (fileio.cpp lines 62-87).  `flushErr`
is the result the underlying `mender::io::Flush` would return if called
(`none` = success).  Queries the position, rejects writes crossing the
limit before any I/O, otherwise writes through `FileWriter::Write`
(full write on a regular file), accumulates the unflushed counter, and
once it reaches the interval issues a flush: on flush failure the error
is returned (counter left accumulated), on success the interval is
subtracted from the counter. -/
def LimitedFlushingWriter.Write (w : LimitedFlushingWriter)
    (chunk : List Nat) (flushErr : Option Nat) :
    Except WriteError Nat × LimitedFlushingWriter :=
  let pos := w.fd.pos
  if w.mWritingLimit ≠ 0 ∧ w.mWritingLimit < pos + chunk.length then
    (Except.error WriteError.capacityExceeded, w)
  else
    let fd' : FileState := ⟨fileWriteAt w.fd.data pos chunk, pos + chunk.length⟩
    let acc := w.mUnflushedBytesWritten + chunk.length
    if w.mFlushIntervalBytes ≤ acc then
      match flushErr with
      | some e =>
        (Except.error (WriteError.flushFailed e),
         { w with fd := fd', mUnflushedBytesWritten := acc,
                  flushesIssued := w.flushesIssued + 1 })
      | none =>
        (Except.ok chunk.length,
         { w with fd := fd', mUnflushedBytesWritten := acc - w.mFlushIntervalBytes,
                  flushesIssued := w.flushesIssued + 1 })
    else
      (Except.ok chunk.length,
       { w with fd := fd', mUnflushedBytesWritten := acc })

/-- One result of the underlying `read(2)` system call, as seen by
`mender::io::Read`: an interruption (errno = EINTR), a failure with an
OS error code, or a successful transfer of some bytes
(an empty transfer is end-of-data). -/
inductive SysRead where
  | eintr
  | fail (e : Nat)
  | chunk (bytes : List Nat)
deriving DecidableEq, Repr

/-- The retry loop of `mender::io::Read` (platformfs.cpp lines 103-122)
with the accumulated `bytesRead`.  Consumes one script entry per
`read(2)` call: interruptions are retried, failures returned with the
OS cause, successful transfers accumulate until a zero-length transfer
(end-of-data) or a full buffer.  `none` means the script ran out while
the loop would still be reading (the call would block). -/
def ioReadAux (dataLen : Nat) : List SysRead → Nat → Option (Except Nat Nat)
  | [], _ => none
  | SysRead.eintr :: rest, acc => ioReadAux dataLen rest acc
  | SysRead.fail e :: _, _ => some (Except.error e)
  | SysRead.chunk c :: rest, acc =>
    if c.length = 0 ∨ acc + c.length = dataLen then some (Except.ok (acc + c.length))
    else ioReadAux dataLen rest (acc + c.length)

/-- `mender::io::Read(f, dataPtr, dataLen)` against the system-call
script `s`. -/
def ioRead (s : List SysRead) (dataLen : Nat) : Option (Except Nat Nat) :=
  ioReadAux dataLen s 0

/-- Total bytes the system-call script can transfer. -/
def scriptBytes : List SysRead → Nat
  | [] => 0
  | SysRead.eintr :: rest => scriptBytes rest
  | SysRead.fail _ :: rest => scriptBytes rest
  | SysRead.chunk c :: rest => c.length + scriptBytes rest

/-- `true` when the script contains no failure and no end-of-data
(every successful transfer is non-empty). -/
def scriptClean : List SysRead → Bool
  | [] => true
  | SysRead.eintr :: rest => scriptClean rest
  | SysRead.fail _ :: _ => false
  | SysRead.chunk c :: rest => decide (c.length ≠ 0) && scriptClean rest

/-- Result of `stat(2)` on a path: whether the inode is a block device,
a character device, and the major number of its device id. -/
structure StatBuf where
  isBlk : Bool
  isChr : Bool
  rdevMajor : Nat
deriving DecidableEq, Repr

/-- `UBIMajorDevNo` (platformfs.cpp line 30). -/
def UBIMajorDevNo : Nat := 10

/-- `mender::io::IsUBIDevice` (platformfs.cpp lines 219-230): a failed
`stat` is propagated; otherwise the path is classified as UBI exactly
when `S_ISBLK(st_mode)` holds and the rdev major equals 10. -/
def IsUBIDevice (st : Except Nat StatBuf) : Except Nat Bool :=
  match st with
  | Except.error e => Except.error e
  | Except.ok sb => Except.ok (sb.isBlk && sb.rdevMajor == UBIMajorDevNo)

/-! ### Helper lemmas -/

lemma chunksOfAux_fuel (B : Nat) (hB : 0 < B) :
    ∀ (f1 f2 : Nat) (l : List Nat), l.length < f1 → l.length < f2 →
      chunksOfAux B f1 l = chunksOfAux B f2 l := by
  intro f1
  induction f1 with
  | zero => intro f2 l h1 _; omega
  | succ f1 ih =>
    intro f2 l h1 h2
    cases f2 with
    | zero => omega
    | succ f2 =>
      by_cases hl : l = []
      · simp [chunksOfAux, hl]
      · have hlen : 0 < l.length := List.length_pos.mpr hl
        simp only [chunksOfAux, if_neg hl]
        congr 1
        apply ih
        · simp only [List.length_drop]; omega
        · simp only [List.length_drop]; omega

lemma chunksOf_cons (B : Nat) (l : List Nat) (hB : 0 < B) (hl : l ≠ []) :
    chunksOf B l = l.take B :: chunksOf B (l.drop B) := by
  have hlen : 0 < l.length := List.length_pos.mpr hl
  have key : chunksOfAux B l.length (l.drop B)
      = chunksOfAux B ((l.drop B).length + 1) (l.drop B) := by
    apply chunksOfAux_fuel B hB <;> simp only [List.length_drop] <;> omega
  calc chunksOf B l = l.take B :: chunksOfAux B l.length (l.drop B) := by
        simp only [chunksOf, chunksOfAux, if_neg hl]
    _ = l.take B :: chunksOf B (l.drop B) := by rw [key]; rfl

lemma srcScript_cons (B : Nat) (l : List Nat) (hB : 0 < B) (hl : l ≠ []) :
    srcScript B l = Except.ok (l.take B) :: srcScript B (l.drop B) := by
  simp [srcScript, chunksOf_cons B l hB hl]

lemma srcScript_nil (B : Nat) : srcScript B [] = [] := rfl

lemma copyLoop_nil_unbounded {σ : Type} (ops : DstOps σ) (B : Nat) (opt : Bool)
    (dst : σ) (rv wv : List Nat) (p : Nat) (stats : Statistics) (flag : Bool) :
    copyLoop ops B 0 opt [] dst rv wv p stats flag = ⟨Except.ok (), stats, dst⟩ := by
  simp [copyLoop]

lemma copyLoop_nil_tooShort {σ : Type} (ops : DstOps σ) (B C : Nat) (opt : Bool)
    (dst : σ) (rv wv : List Nat) (p : Nat) (stats : Statistics)
    (hC : C ≠ 0) (h : p + B ≤ C) :
    copyLoop ops B C opt [] dst rv wv p stats false
      = ⟨Except.error CopyError.tooShort, stats, dst⟩ := by
  simp [copyLoop, hC]
  omega

lemma copyLoop_nil_reached {σ : Type} (ops : DstOps σ) (B C : Nat) (opt : Bool)
    (dst : σ) (rv wv : List Nat) (p : Nat) (stats : Statistics)
    (hC : C ≠ 0) (h : C < p + B) :
    copyLoop ops B C opt [] dst rv wv p stats false = ⟨Except.ok (), stats, dst⟩ := by
  simp [copyLoop, hC]
  omega

/-- One iteration of the copy loop against a regular-file destination,
for a non-empty chunk within the block size, before the capacity
boundary: the block is skipped exactly when the engine runs optimized,
the compare read returns exactly the requested count, and the two full
block-size buffers coincide; otherwise the chunk is written at the
current position. -/
lemma copyLoop_step_file (B C : Nat) (opt : Bool) (chunk : List Nat)
    (rest : List (Except Nat (List Nat))) (data : List Nat) (q : Nat)
    (rv wv : List Nat) (p : Nat) (stats : Statistics)
    (hch : chunk ≠ []) (hlen : chunk.length ≤ B) (hcap : C = 0 ∨ p + B ≤ C) :
    copyLoop fileOps B C opt (Except.ok chunk :: rest) ⟨data, q⟩ rv wv p stats false =
      (let len := chunk.length
       let rv' := chunk ++ rv.drop len
       let dchunk := (data.drop p).take len
       let wv' := dchunk ++ wv.drop dchunk.length
       if opt = true ∧ dchunk.length = len ∧ rv' = wv' then
         copyLoop fileOps B C opt rest ⟨data, p + dchunk.length⟩ rv' wv' (p + len)
           { stats with blocksOmitted := stats.blocksOmitted + 1,
                        bytesTotal := stats.bytesTotal + len } false
       else
         copyLoop fileOps B C opt rest ⟨fileWriteAt data p chunk, p + len⟩ rv'
           (if opt then wv' else wv) (p + len)
           { stats with blocksWritten := stats.blocksWritten + 1,
                        bytesWritten := stats.bytesWritten + len,
                        bytesTotal := stats.bytesTotal + len } false) := by
  have hlen0 : ¬ chunk.length = 0 := by
    simpa [List.length_eq_zero] using hch
  have hBlt : ¬ B < chunk.length := by omega
  have hreach : ¬ (C ≠ 0 ∧ p + B > C) := by omega
  simp only [copyLoop, hlen0, if_false, decide_eq_true_eq, hreach, decide_False,
    Bool.false_or, Bool.or_false, if_neg hlen0, if_neg hBlt]
  simp only [fileOps, compareStep, writeStep, fileWriteAt]
  cases opt with
  | false =>
    simp [hlen0]
  | true =>
    by_cases hq1 : chunk.length ≤ data.length - p
    · have hmin : chunk.length ⊓ (data.length - p) = chunk.length := min_eq_left hq1
      by_cases hq2 : chunk ++ List.drop chunk.length rv =
          List.take chunk.length (List.drop p data) ++ List.drop chunk.length wv
      · simp [hq1, hq2, hmin, List.length_take]
      · simp [hq1, hq2, hmin, List.length_take]
    · have hne : ¬ (List.take chunk.length (List.drop p data)).length = chunk.length := by
        simp [List.length_take]; omega
      simp [hq1, hne, List.length_take]

/-- With no configured volume size and a regular-file destination, a copy
from a file source always succeeds, and afterwards the destination
content carries the source bytes at the positions processed: bytes
before the start position are untouched, the source contents lie at
positions `[p, p + length)`, and the file is at least that long. -/
lemma copyLoop_file_unbounded (B : Nat) (opt : Bool) (hB : 0 < B) :
    ∀ (n : Nat) (src' : List Nat), src'.length ≤ n →
    ∀ (data : List Nat) (q p : Nat) (rv wv : List Nat) (stats : Statistics),
      p ≤ data.length →
      (copyLoop fileOps B 0 opt (srcScript B src') ⟨data, q⟩ rv wv p stats false).outcome
          = Except.ok ()
      ∧ (copyLoop fileOps B 0 opt (srcScript B src') ⟨data, q⟩ rv wv p stats false).dst.data.take p
          = data.take p
      ∧ ((copyLoop fileOps B 0 opt (srcScript B src') ⟨data, q⟩ rv wv p stats false).dst.data.drop p).take src'.length
          = src'
      ∧ p + src'.length
          ≤ (copyLoop fileOps B 0 opt (srcScript B src') ⟨data, q⟩ rv wv p stats false).dst.data.length := by
  intro n
  induction n with
  | zero =>
    intro src' hn data q p rv wv stats hp
    have hsrc : src' = [] := List.length_eq_zero.mp (Nat.le_zero.mp hn)
    subst hsrc
    rw [srcScript_nil, copyLoop_nil_unbounded]
    exact ⟨rfl, rfl, rfl, by simpa using hp⟩
  | succ n ih =>
    intro src' hn data q p rv wv stats hp
    by_cases hsrc : src' = []
    · subst hsrc
      rw [srcScript_nil, copyLoop_nil_unbounded]
      exact ⟨rfl, rfl, rfl, by simpa using hp⟩
    · have hlenpos : 0 < src'.length := List.length_pos.mpr hsrc
      set chunk := src'.take B with hchunk
      have hchne : chunk ≠ [] := by
        intro h
        rcases List.take_eq_nil_iff.mp h with h | h
        · omega
        · exact hsrc h
      have hchlen : chunk.length ≤ B := by
        rw [hchunk, List.length_take]; omega
      have hlen_eq : chunk.length = min B src'.length := by
        rw [hchunk, List.length_take]
      have hdroplen : (src'.drop B).length ≤ n := by
        rw [List.length_drop]; omega
      have hsum : chunk.length + (src'.drop B).length = src'.length := by
        rw [hlen_eq, List.length_drop]; omega
      rw [srcScript_cons B src' hB hsrc,
        copyLoop_step_file B 0 opt chunk (srcScript B (src'.drop B)) data q rv wv p stats
          hchne hchlen (Or.inl rfl)]
      dsimp only
      have hrep : List.replicate (p - data.length) (0 : Nat) = [] := by
        have h0 : p - data.length = 0 := by omega
        rw [h0, List.replicate]
      have hw : fileWriteAt data p chunk
          = (data.take p ++ chunk) ++ data.drop (p + chunk.length) := by
        rw [fileWriteAt, hrep]
        simp [List.append_assoc]
      have htp : (data.take p).length = p := by
        rw [List.length_take]; omega
      have htc : (data.take p ++ chunk).length = p + chunk.length := by
        rw [List.length_append, htp]
      have hwlen : p + chunk.length ≤ (fileWriteAt data p chunk).length := by
        rw [hw, List.length_append, htc]; omega
      have hwtake : (fileWriteAt data p chunk).take (p + chunk.length)
          = data.take p ++ chunk := by
        rw [hw, List.take_left' htc]
      have hWRITE : ∀ (wv₀ : List Nat) (stats₀ : Statistics),
          (copyLoop fileOps B 0 opt (srcScript B (src'.drop B))
              ⟨fileWriteAt data p chunk, p + chunk.length⟩
              (chunk ++ List.drop chunk.length rv) wv₀ (p + chunk.length) stats₀ false).outcome
            = Except.ok ()
          ∧ (copyLoop fileOps B 0 opt (srcScript B (src'.drop B))
              ⟨fileWriteAt data p chunk, p + chunk.length⟩
              (chunk ++ List.drop chunk.length rv) wv₀ (p + chunk.length) stats₀ false).dst.data.take p
            = data.take p
          ∧ ((copyLoop fileOps B 0 opt (srcScript B (src'.drop B))
              ⟨fileWriteAt data p chunk, p + chunk.length⟩
              (chunk ++ List.drop chunk.length rv) wv₀ (p + chunk.length) stats₀ false).dst.data.drop p).take src'.length
            = src'
          ∧ p + src'.length
            ≤ (copyLoop fileOps B 0 opt (srcScript B (src'.drop B))
              ⟨fileWriteAt data p chunk, p + chunk.length⟩
              (chunk ++ List.drop chunk.length rv) wv₀ (p + chunk.length) stats₀ false).dst.data.length := by
        intro wv₀ stats₀
        obtain ⟨e1, e2, e3, e4⟩ := ih (src'.drop B) hdroplen (fileWriteAt data p chunk)
          (p + chunk.length) (p + chunk.length) (chunk ++ List.drop chunk.length rv) wv₀ stats₀ hwlen
        refine ⟨e1, ?_, ?_, by omega⟩
        · calc (copyLoop fileOps B 0 opt (srcScript B (src'.drop B)) _ _ _ _ _ false).dst.data.take p
              = ((copyLoop fileOps B 0 opt (srcScript B (src'.drop B)) _ _ _ _ _ false).dst.data.take (p + chunk.length)).take p := by
                rw [List.take_take, min_eq_left (by omega)]
          _ = ((fileWriteAt data p chunk).take (p + chunk.length)).take p := by rw [e2]
          _ = data.take p := by rw [hwtake, List.take_left' htp]
        · rw [← hsum, List.take_add]
          conv_rhs => rw [← List.take_append_drop B src']
          congr 1
          · rw [List.take_drop, e2, hwtake, List.drop_left' htp]
          · rw [List.drop_drop, e3]
      split_ifs with hskip hopt

      · -- the block matched: skipped, data unchanged
        obtain ⟨hopt, hdl, heq⟩ := hskip
        have hple : p + chunk.length ≤ data.length := by
          rw [List.length_take, List.length_drop] at hdl
          omega
        have hdc : chunk = List.take chunk.length (List.drop p data) :=
          (List.append_inj heq (by rw [hdl])).1
        rw [show List.take chunk.length (List.drop p data) = chunk from hdc.symm]
        obtain ⟨e1, e2, e3, e4⟩ := ih (src'.drop B) hdroplen data (p + chunk.length)
          (p + chunk.length) (chunk ++ List.drop chunk.length rv)
          (chunk ++ List.drop chunk.length wv)
          { stats with blocksOmitted := stats.blocksOmitted + 1,
                       bytesTotal := stats.bytesTotal + chunk.length }
          (by omega)
        refine ⟨e1, ?_, ?_, by omega⟩
        · calc (copyLoop fileOps B 0 opt (srcScript B (src'.drop B)) _ _ _ _ _ false).dst.data.take p
              = ((copyLoop fileOps B 0 opt (srcScript B (src'.drop B)) _ _ _ _ _ false).dst.data.take (p + chunk.length)).take p := by
                rw [List.take_take, min_eq_left (by omega)]
          _ = (data.take (p + chunk.length)).take p := by rw [e2]
          _ = data.take p := by rw [List.take_take, min_eq_left (by omega)]
        · rw [← hsum, List.take_add]
          conv_rhs => rw [← List.take_append_drop B src']
          congr 1
          · rw [List.take_drop, e2, ← List.take_drop]
            exact hdc.symm
          · rw [List.drop_drop, e3]
      · exact hWRITE _ _
      · exact hWRITE _ _

/-- Optimized re-copy over a destination that already carries the source
bytes: every block is skipped.  The two block buffers start out equal
(both zero-filled) and stay equal, so the full-buffer comparison always
succeeds; no block is written, each block counts as omitted. -/
lemma copyLoop_file_all_skip (B : Nat) (hB : 0 < B) :
    ∀ (n : Nat) (src' : List Nat), src'.length ≤ n →
    ∀ (data : List Nat) (q p : Nat) (bv : List Nat) (stats : Statistics),
      (data.drop p).take src'.length = src' →
      p + src'.length ≤ data.length →
      (copyLoop fileOps B 0 true (srcScript B src') ⟨data, q⟩ bv bv p stats false).outcome
          = Except.ok ()
      ∧ (copyLoop fileOps B 0 true (srcScript B src') ⟨data, q⟩ bv bv p stats false).stats
          = { stats with
                blocksOmitted := stats.blocksOmitted + (chunksOf B src').length,
                bytesTotal := stats.bytesTotal + src'.length } := by
  intro n
  induction n with
  | zero =>
    intro src' hn data q p bv stats hagree hfit
    have hsrc : src' = [] := List.length_eq_zero.mp (Nat.le_zero.mp hn)
    subst hsrc
    rw [srcScript_nil, copyLoop_nil_unbounded]
    exact ⟨rfl, rfl⟩
  | succ n ih =>
    intro src' hn data q p bv stats hagree hfit
    by_cases hsrc : src' = []
    · subst hsrc
      rw [srcScript_nil, copyLoop_nil_unbounded]
      exact ⟨rfl, rfl⟩
    · have hlenpos : 0 < src'.length := List.length_pos.mpr hsrc
      set chunk := src'.take B with hchunk
      have hchne : chunk ≠ [] := by
        intro h
        rcases List.take_eq_nil_iff.mp h with h | h
        · omega
        · exact hsrc h
      have hlen_eq : chunk.length = min B src'.length := by
        rw [hchunk, List.length_take]
      have hchlen : chunk.length ≤ B := by omega
      have hchle : chunk.length ≤ src'.length := by omega
      have hdroplen : (src'.drop B).length ≤ n := by
        rw [List.length_drop]; omega
      have hsum : chunk.length + (src'.drop B).length = src'.length := by
        rw [hlen_eq, List.length_drop]; omega
      have htk : src'.take chunk.length = chunk := by
        rcases le_total B src'.length with h | h
        · rw [hlen_eq, min_eq_left h]
        · rw [hlen_eq, min_eq_right h, List.take_length, hchunk,
            List.take_of_length_le h]
      have hdchunk : (data.drop p).take chunk.length = chunk := by
        have h1 := congrArg (List.take chunk.length) hagree
        rw [List.take_take, min_eq_left hchle] at h1
        rw [h1, htk]
      have hdl : ((data.drop p).take chunk.length).length = chunk.length := by
        rw [hdchunk]
      rw [srcScript_cons B src' hB hsrc,
        copyLoop_step_file B 0 true chunk (srcScript B (src'.drop B)) data q bv bv p stats
          hchne hchlen (Or.inl rfl)]
      dsimp only
      rw [hdchunk]
      rw [if_pos ⟨rfl, rfl, rfl⟩]
      have hagree' : (data.drop (p + chunk.length)).take (src'.drop B).length
          = src'.drop B := by
        have h1 := congrArg (List.drop chunk.length) hagree
        rw [List.drop_take, List.drop_drop, Nat.add_comm p chunk.length] at h1
        have h2 : src'.drop chunk.length = src'.drop B := by
          rcases le_total B src'.length with h | h
          · rw [hlen_eq, min_eq_left h]
          · rw [hlen_eq, min_eq_right h, List.drop_length,
              List.drop_of_length_le h]
        have h3 : src'.length - chunk.length = (src'.drop B).length := by
          rw [List.length_drop]; omega
        rw [h3, h2] at h1
        rw [Nat.add_comm chunk.length p] at h1
        exact h1
      obtain ⟨e1, e2⟩ := ih (src'.drop B) hdroplen data (p + chunk.length)
        (p + chunk.length) (chunk ++ List.drop chunk.length bv)
        { stats with blocksOmitted := stats.blocksOmitted + 1,
                     bytesTotal := stats.bytesTotal + chunk.length }
        hagree' (by omega)
      refine ⟨e1, ?_⟩
      rw [e2, chunksOf_cons B src' hB hsrc]
      simp only [List.length_cons]
      congr 1
      · omega
      · omega

/-- The number of chunks a file of length `L` is read in is `ceil(L/B)`. -/
lemma chunksOf_length (B : Nat) (hB : 0 < B) :
    ∀ (n : Nat) (l : List Nat), l.length ≤ n →
      (chunksOf B l).length = (l.length + B - 1) / B := by
  intro n
  induction n with
  | zero =>
    intro l hn
    have hl : l = [] := List.length_eq_zero.mp (Nat.le_zero.mp hn)
    subst hl
    simp [chunksOf, chunksOfAux, Nat.div_eq_of_lt (by omega : B - 1 < B)]
  | succ n ih =>
    intro l hn
    by_cases hl : l = []
    · subst hl
      simp [chunksOf, chunksOfAux, Nat.div_eq_of_lt (by omega : B - 1 < B)]
    · have hlp : 0 < l.length := List.length_pos.mpr hl
      rw [chunksOf_cons B l hB hl, List.length_cons,
        ih (l.drop B) (by rw [List.length_drop]; omega), List.length_drop]
      have h1 : l.length + B - 1 = (l.length - 1) + B := by omega
      rw [h1, Nat.add_div_right _ hB]
      congr 1
      rcases lt_or_le B l.length with h | h
      · have h2 : l.length - B + B - 1 = (l.length - 1 - B) + B := by omega
        rw [h2, Nat.add_div_right _ hB]
        have h3 : l.length - 1 = (l.length - 1 - B) + B := by omega
        conv_rhs => rw [h3, Nat.add_div_right _ hB]
      · have h2 : l.length - B + B - 1 = B - 1 := by omega
        rw [h2, Nat.div_eq_of_lt (by omega : B - 1 < B),
          Nat.div_eq_of_lt (by omega : l.length - 1 < B)]

/-- When the next full block would cross the capacity and the source
still delivers bytes, the loop stops with the too-big error. -/
lemma copyLoop_cons_reached {σ : Type} (ops : DstOps σ) (B C : Nat) (opt : Bool)
    (chunk : List Nat) (rest : List (Except Nat (List Nat))) (dst : σ)
    (rv wv : List Nat) (p : Nat) (stats : Statistics)
    (hch : chunk ≠ []) (hlen : chunk.length ≤ B) (hC : C ≠ 0) (h : C < p + B) :
    copyLoop ops B C opt (Except.ok chunk :: rest) dst rv wv p stats false
      = ⟨Except.error CopyError.tooBig, stats, dst⟩ := by
  have hlen0 : ¬ chunk.length = 0 := by
    simpa [List.length_eq_zero] using hch
  have hBlt : ¬ B < chunk.length := by omega
  have hreach : (C ≠ 0 ∧ p + B > C) := ⟨hC, by omega⟩
  simp [copyLoop, hlen0, hBlt, hreach]

/-- A file source that ends more than a block before the configured
capacity makes the copy fail with the too-short error, having processed
exactly the source length. -/
lemma copyLoop_file_tooShort (B C : Nat) (opt : Bool) (hB : 0 < B) (hC : C ≠ 0) :
    ∀ (n : Nat) (src' : List Nat), src'.length ≤ n →
    ∀ (data : List Nat) (q p : Nat) (rv wv : List Nat) (stats : Statistics),
      p + src'.length + B ≤ C →
      (copyLoop fileOps B C opt (srcScript B src') ⟨data, q⟩ rv wv p stats false).outcome
          = Except.error CopyError.tooShort
      ∧ (copyLoop fileOps B C opt (srcScript B src') ⟨data, q⟩ rv wv p stats false).stats.bytesTotal
          = stats.bytesTotal + src'.length := by
  intro n
  induction n with
  | zero =>
    intro src' hn data q p rv wv stats hcap
    have hsrc : src' = [] := List.length_eq_zero.mp (Nat.le_zero.mp hn)
    subst hsrc
    rw [srcScript_nil, copyLoop_nil_tooShort fileOps B C opt _ rv wv p stats hC (by omega)]
    exact ⟨rfl, by simp⟩
  | succ n ih =>
    intro src' hn data q p rv wv stats hcap
    by_cases hsrc : src' = []
    · subst hsrc
      rw [srcScript_nil, copyLoop_nil_tooShort fileOps B C opt _ rv wv p stats hC (by omega)]
      exact ⟨rfl, by simp⟩
    · have hlenpos : 0 < src'.length := List.length_pos.mpr hsrc
      set chunk := src'.take B with hchunk
      have hchne : chunk ≠ [] := by
        intro h
        rcases List.take_eq_nil_iff.mp h with h | h
        · omega
        · exact hsrc h
      have hlen_eq : chunk.length = min B src'.length := by
        rw [hchunk, List.length_take]
      have hchlen : chunk.length ≤ B := by omega
      have hdroplen : (src'.drop B).length ≤ n := by
        rw [List.length_drop]; omega
      have hsum : chunk.length + (src'.drop B).length = src'.length := by
        rw [hlen_eq, List.length_drop]; omega
      rw [srcScript_cons B src' hB hsrc,
        copyLoop_step_file B C opt chunk (srcScript B (src'.drop B)) data q rv wv p stats
          hchne hchlen (Or.inr (by omega))]
      dsimp only
      split_ifs with hskip hopt
      · obtain ⟨e1, e2⟩ := ih (src'.drop B) hdroplen data _ (p + chunk.length) _ _
          { stats with blocksOmitted := stats.blocksOmitted + 1,
                       bytesTotal := stats.bytesTotal + chunk.length }
          (by omega)
        exact ⟨e1, by rw [e2]; simp; omega⟩
      · obtain ⟨e1, e2⟩ := ih (src'.drop B) hdroplen (fileWriteAt data p chunk) _
          (p + chunk.length) _ _
          { stats with blocksWritten := stats.blocksWritten + 1,
                       bytesWritten := stats.bytesWritten + chunk.length,
                       bytesTotal := stats.bytesTotal + chunk.length }
          (by omega)
        exact ⟨e1, by rw [e2]; simp; omega⟩
      · obtain ⟨e1, e2⟩ := ih (src'.drop B) hdroplen (fileWriteAt data p chunk) _
          (p + chunk.length) _ _
          { stats with blocksWritten := stats.blocksWritten + 1,
                       bytesWritten := stats.bytesWritten + chunk.length,
                       bytesTotal := stats.bytesTotal + chunk.length }
          (by omega)
        exact ⟨e1, by rw [e2]; simp; omega⟩

/-- A file source that still has data when the capacity boundary is hit
makes the copy fail with the too-big error exactly at the first block
whose start plus the block size crosses the capacity: the bytes
processed until then are `B * (C / B)` counted from start position. -/
lemma copyLoop_file_tooBig (B C : Nat) (opt : Bool) (hB : 0 < B) (hC : 0 < C) :
    ∀ (n : Nat) (src' : List Nat), src'.length ≤ n →
    ∀ (data : List Nat) (q p : Nat) (rv wv : List Nat) (stats : Statistics),
      p ≤ C → C < p + src'.length →
      (copyLoop fileOps B C opt (srcScript B src') ⟨data, q⟩ rv wv p stats false).outcome
          = Except.error CopyError.tooBig
      ∧ (copyLoop fileOps B C opt (srcScript B src') ⟨data, q⟩ rv wv p stats false).stats.bytesTotal
          = stats.bytesTotal + B * ((C - p) / B) := by
  intro n
  induction n with
  | zero =>
    intro src' hn data q p rv wv stats hpC hlong
    have hsrc : src' = [] := List.length_eq_zero.mp (Nat.le_zero.mp hn)
    subst hsrc
    simp at hlong
    omega
  | succ n ih =>
    intro src' hn data q p rv wv stats hpC hlong
    have hsrc : src' ≠ [] := by
      intro h
      subst h
      simp at hlong
      omega
    have hlenpos : 0 < src'.length := List.length_pos.mpr hsrc
    set chunk := src'.take B with hchunk
    have hchne : chunk ≠ [] := by
      intro h
      rcases List.take_eq_nil_iff.mp h with h | h
      · omega
      · exact hsrc h
    have hlen_eq : chunk.length = min B src'.length := by
      rw [hchunk, List.length_take]
    have hchlen : chunk.length ≤ B := by omega
    rcases lt_or_le C (p + B) with hcross | hfit
    · -- the current block already crosses the capacity
      rw [srcScript_cons B src' hB hsrc,
        copyLoop_cons_reached fileOps B C opt chunk _ _ rv wv p stats hchne hchlen
          (by omega) hcross]
      have hz : (C - p) / B = 0 := Nat.div_eq_of_lt (by omega)
      exact ⟨rfl, by simp [hz]⟩
    · -- a full block fits: it is processed and the loop continues
      have hlenB : chunk.length = B := by
        rw [hlen_eq]
        omega
      have hdroplen : (src'.drop B).length ≤ n := by
        rw [List.length_drop]; omega
      have hdiv : B * ((C - p) / B) = B + B * ((C - (p + B)) / B) := by
        have h1 : C - p = (C - (p + B)) + B := by omega
        conv_lhs => rw [h1, Nat.add_div_right _ hB]
        ring
      rw [srcScript_cons B src' hB hsrc,
        copyLoop_step_file B C opt chunk (srcScript B (src'.drop B)) data q rv wv p stats
          hchne hchlen (Or.inr (by omega))]
      dsimp only
      split_ifs with hskip hopt
      · obtain ⟨e1, e2⟩ := ih (src'.drop B) hdroplen data _ (p + chunk.length) _ _
          { stats with blocksOmitted := stats.blocksOmitted + 1,
                       bytesTotal := stats.bytesTotal + chunk.length }
          (by omega) (by rw [List.length_drop]; omega)
        refine ⟨e1, ?_⟩
        rw [e2]
        dsimp only
        rw [hlenB, hdiv]
        ring
      · obtain ⟨e1, e2⟩ := ih (src'.drop B) hdroplen (fileWriteAt data p chunk) _
          (p + chunk.length) _ _
          { stats with blocksWritten := stats.blocksWritten + 1,
                       bytesWritten := stats.bytesWritten + chunk.length,
                       bytesTotal := stats.bytesTotal + chunk.length }
          (by omega) (by rw [List.length_drop]; omega)
        refine ⟨e1, ?_⟩
        rw [e2]
        dsimp only
        rw [hlenB, hdiv]
        ring
      · obtain ⟨e1, e2⟩ := ih (src'.drop B) hdroplen (fileWriteAt data p chunk) _
          (p + chunk.length) _ _
          { stats with blocksWritten := stats.blocksWritten + 1,
                       bytesWritten := stats.bytesWritten + chunk.length,
                       bytesTotal := stats.bytesTotal + chunk.length }
          (by omega) (by rw [List.length_drop]; omega)
        refine ⟨e1, ?_⟩
        rw [e2]
        dsimp only
        rw [hlenB, hdiv]
        ring

/-- On any destination device and any reader script, if the loop ends in
success then `bytesTotal` grew by exactly the bytes the reader delivered
before its end-of-data. -/
lemma copyLoop_ok_bytesTotal {σ : Type} (ops : DstOps σ) (B C : Nat) (opt : Bool) :
    ∀ (script : List (Except Nat (List Nat))) (dst : σ) (rv wv : List Nat)
      (p : Nat) (stats : Statistics) (flag : Bool),
      (copyLoop ops B C opt script dst rv wv p stats flag).outcome = Except.ok () →
      (copyLoop ops B C opt script dst rv wv p stats flag).stats.bytesTotal
        = stats.bytesTotal + srcConsumed script := by
  intro script
  induction script with
  | nil =>
    intro dst rv wv p stats flag h
    rw [srcConsumed]
    simp only [copyLoop] at h ⊢
    split_ifs at h ⊢ with h1
    all_goals simp_all
  | cons head rest ih =>
    intro dst rv wv p stats flag h
    cases head with
    | error e => simp [copyLoop] at h
    | ok chunk =>
      by_cases hc0 : chunk.length = 0
      · rw [srcConsumed, if_pos hc0]
        simp only [copyLoop, if_pos hc0] at h ⊢
        split_ifs at h ⊢ with h1
        all_goals simp_all
      · rw [srcConsumed, if_neg hc0]
        simp only [copyLoop, if_neg hc0] at h ⊢
        by_cases hcB : B < chunk.length
        · rw [if_pos hcB] at h
          simp at h
        · rw [if_neg hcB] at h ⊢
          by_cases hreach : (flag || decide (C ≠ 0 ∧ p + B > C)) = true
          · rw [if_pos hreach] at h
            simp at h
          · rw [if_neg hreach] at h ⊢
            rcases hseek : ops.seekSet dst p with ⟨oe, dst₁⟩
            rw [hseek] at h
            cases oe with
            | some e' => simp at h
            | none =>
              dsimp only at h ⊢
              rcases hcmp : compareStep ops opt chunk.length
                  (chunk ++ List.drop chunk.length rv) wv dst₁ with ⟨sk, wv', dst₂⟩
              rw [hcmp] at h
              cases sk with
              | true =>
                dsimp only at h ⊢
                rw [ih _ _ _ _ _ _ h]
                dsimp only
                omega
              | false =>
                dsimp only at h ⊢
                rcases hwr : writeStep ops p chunk dst₂ with ⟨e', dst₄⟩ | dst₄
                · rw [hwr] at h
                  simp at h
                · rw [hwr] at h
                  dsimp only at h ⊢
                  rw [ih _ _ _ _ _ _ h]
                  dsimp only
                  omega

/-- Helper equalities: the error-read device shares the seek and write
behaviour of a regular file. -/
lemma errReadOps_seekSet (e : Nat) : (errReadOps e).seekSet = fileOps.seekSet := rfl

lemma errReadOps_writeStep (e : Nat) (p : Nat) (chunk : List Nat) (d : FileState) :
    writeStep (errReadOps e) p chunk d = writeStep fileOps p chunk d := rfl

/-- In optimized mode against a destination whose every read fails, the
loop behaves exactly as the non-optimized loop on a regular file: the
failed compare read is treated as a mismatch and the block is written. -/
lemma copyLoop_errRead_eq (e : Nat) (B C : Nat) :
    ∀ (script : List (Except Nat (List Nat))) (dst : FileState)
      (rv wv : List Nat) (p : Nat) (stats : Statistics) (flag : Bool),
      copyLoop (errReadOps e) B C true script dst rv wv p stats flag
        = copyLoop fileOps B C false script dst rv wv p stats flag := by
  intro script
  induction script with
  | nil => intro dst rv wv p stats flag; rfl
  | cons head rest ih =>
    intro dst rv wv p stats flag
    cases head with
    | error e' => rfl
    | ok chunk =>
      simp only [copyLoop]
      by_cases hc0 : chunk.length = 0
      · rw [if_pos hc0, if_pos hc0]
      · rw [if_neg hc0, if_neg hc0]
        by_cases hcB : B < chunk.length
        · rw [if_pos hcB, if_pos hcB]
        · rw [if_neg hcB, if_neg hcB]
          by_cases hreach : (flag || decide (C ≠ 0 ∧ p + B > C)) = true
          · rw [if_pos hreach, if_pos hreach]
          · rw [if_neg hreach, if_neg hreach]
            rw [errReadOps_seekSet]
            rcases hseek : fileOps.seekSet dst p with ⟨oe, dst₁⟩
            cases oe with
            | some e' => rfl
            | none =>
              dsimp only
              have hcmp : compareStep (errReadOps e) true chunk.length
                  (chunk ++ List.drop chunk.length rv) wv dst₁
                  = (false, wv, dst₁) := by
                simp [compareStep, errReadOps]
              have hcmp' : compareStep fileOps false chunk.length
                  (chunk ++ List.drop chunk.length rv) wv dst₁
                  = (false, wv, dst₁) := rfl
              rw [hcmp, hcmp']
              dsimp only
              rw [errReadOps_writeStep]
              rcases hwr : writeStep fileOps p chunk dst₁ with ed | dst₄
              · rfl
              · exact ih dst₄ _ wv (p + chunk.length) _ _

/-! ### Claim theorems -/

/-- C1 (counterexample): the claim states that every source strictly
shorter than the configured capacity makes Copy fail with the too-short
error.  With capacity 10, block size 6 and a 5-byte source, the copy
SUCCEEDS: the capacity check is block-granular, so a source ending
within the last block of the capacity is accepted. -/
theorem c1_counterexample_short_source_succeeds :
    (copyFile 6 10 false [1, 2, 3, 4, 5] []).outcome = Except.ok ()
    ∧ ([1, 2, 3, 4, 5] : List Nat).length < 10 := by
  exact ⟨rfl, by decide⟩

/-- C1 (amended): Copy fails with the too-short error, with bytesTotal
equal to the source length read, exactly when the source ends at least
one full block before the capacity: for every block size B greater than 0,
capacity C greater than 0 and source of length L with L + B at most C, the copy
fails with the too-short error and bytesTotal = L.  (For C - B < L < C
the block-granular check can instead succeed or report too-big, as the
counterexample shows.) -/
theorem c1_copy_fails_tooShort (B C : Nat) (opt : Bool) (src dstData : List Nat)
    (hB : 0 < B) (hC : 0 < C) (hfit : src.length + B ≤ C) :
    (copyFile B C opt src dstData).outcome = Except.error CopyError.tooShort
    ∧ (copyFile B C opt src dstData).stats.bytesTotal = src.length := by
  have h := copyLoop_file_tooShort B C opt hB (by omega) src.length src le_rfl
    dstData 0 0 (List.replicate B 0) (List.replicate B 0) Statistics.zero (by omega)
  exact ⟨h.1, by have h2 := h.2; simpa [Statistics.zero] using h2⟩

/-- Witness for C1: block size 2, capacity 10, source of 3 bytes. -/
theorem c1_copy_fails_tooShort_witness :
    (copyFile 2 10 false [1, 2, 3] []).outcome = Except.error CopyError.tooShort
    ∧ (copyFile 2 10 false [1, 2, 3] []).stats.bytesTotal = 3 := by
  have h := c1_copy_fails_tooShort 2 10 false [1, 2, 3] [] (by decide) (by decide) (by decide)
  simpa using h

/-- C2 (counterexample): block size 2, optimized, source [1,2,3] onto
destination [9,9,3].  Iteration 1 writes [1,2]; the destination content
when iteration 2 runs is fileWriteAt [9,9,3] 0 [1,2] = [1,2,3], so the
compare read of iteration 2 returns exactly the 1 requested byte [3],
byte-for-byte identical to the source bytes read that iteration — yet
the block is written, because the comparison spans the full block-size
buffers whose stale tail bytes (2 versus 9) differ.  The claim predicts
blocksOmitted = 1; the code yields blocksOmitted = 0, blocksWritten = 2. -/
theorem c2_counterexample_stale_tail :
    (copyFile 2 0 true [1, 2, 3] [9, 9, 3]).stats.blocksOmitted = 0
    ∧ (copyFile 2 0 true [1, 2, 3] [9, 9, 3]).stats.blocksWritten = 2
    ∧ (List.drop 2 (fileWriteAt [9, 9, 3] 0 [1, 2])).take 1 = [3] := by
  exact ⟨rfl, rfl, rfl⟩

/-- C2 (amended): in every optimized iteration (non-empty chunk within
the block size, capacity not yet reached), the block is skipped exactly
when the destination compare read returns exactly the requested count
AND the full block-size buffers — source bytes plus stale tail versus
destination bytes plus stale tail — are identical; in every other case
the block is written at the current position.  For full blocks this
coincides with comparing only the bytes read this iteration; for a
short block the stale tails also take part. -/
theorem c2_skip_iff_full_buffer_match (B C : Nat) (chunk : List Nat)
    (rest : List (Except Nat (List Nat))) (data : List Nat) (q : Nat)
    (rv wv : List Nat) (p : Nat) (stats : Statistics)
    (hch : chunk ≠ []) (hlen : chunk.length ≤ B) (hcap : C = 0 ∨ p + B ≤ C) :
    copyLoop fileOps B C true (Except.ok chunk :: rest) ⟨data, q⟩ rv wv p stats false =
      (let len := chunk.length
       let rv' := chunk ++ rv.drop len
       let dchunk := (data.drop p).take len
       let wv' := dchunk ++ wv.drop dchunk.length
       if dchunk.length = len ∧ rv' = wv' then
         copyLoop fileOps B C true rest ⟨data, p + dchunk.length⟩ rv' wv' (p + len)
           { stats with blocksOmitted := stats.blocksOmitted + 1,
                        bytesTotal := stats.bytesTotal + len } false
       else
         copyLoop fileOps B C true rest ⟨fileWriteAt data p chunk, p + len⟩ rv' wv' (p + len)
           { stats with blocksWritten := stats.blocksWritten + 1,
                        bytesWritten := stats.bytesWritten + len,
                        bytesTotal := stats.bytesTotal + len } false) := by
  have h := copyLoop_step_file B C true chunk rest data q rv wv p stats hch hlen hcap
  simpa using h

/-- Witness for C2: the second iteration of the counterexample run
(chunk [3] at position 2 of destination [1,2,3], buffers [1,2] / [9,9]):
the dest bytes match the source bytes but the full buffers differ, so
the step writes. -/
theorem c2_skip_iff_full_buffer_match_witness :
    copyLoop fileOps 2 0 true [Except.ok [3]] ⟨[1, 2, 3], 2⟩ [1, 2] [9, 9] 2
        ⟨1, 0, 2, 2⟩ false =
      (let len := ([3] : List Nat).length
       let rv' := [3] ++ ([1, 2] : List Nat).drop len
       let dchunk := (([1, 2, 3] : List Nat).drop 2).take len
       let wv' := dchunk ++ ([9, 9] : List Nat).drop dchunk.length
       if dchunk.length = len ∧ rv' = wv' then
         copyLoop fileOps 2 0 true [] ⟨[1, 2, 3], 2 + dchunk.length⟩ rv' wv' (2 + len)
           ⟨1, 0 + 1, 2, 2 + len⟩ false
       else
         copyLoop fileOps 2 0 true [] ⟨fileWriteAt [1, 2, 3] 2 [3], 2 + len⟩ rv' wv' (2 + len)
           ⟨1 + 1, 0, 2 + len, 2 + len⟩ false) := by
  have h := c2_skip_iff_full_buffer_match 2 0 [3] [] [1, 2, 3] 2 [1, 2] [9, 9] 2
    ⟨1, 0, 2, 2⟩ (by decide) (by decide) (Or.inl rfl)
  simpa using h

/-- C3: a write that would cross a configured positive limit is rejected
before any I/O: the call returns the capacity-exceeded error and the
writer state — file content, file position, unflushed counter, flush
count — is exactly unchanged, so zero bytes are written by the call. -/
theorem c3_limited_writer_rejects_over_limit (w : LimitedFlushingWriter)
    (chunk : List Nat) (fe : Option Nat)
    (hlim : 0 < w.mWritingLimit)
    (hover : w.mWritingLimit < w.fd.pos + chunk.length) :
    w.Write chunk fe = (Except.error WriteError.capacityExceeded, w) := by
  unfold LimitedFlushingWriter.Write
  rw [if_pos ⟨by omega, hover⟩]

/-- Witness for C3: limit 10, position 6, 6-byte chunk. -/
theorem c3_limited_writer_rejects_over_limit_witness :
    LimitedFlushingWriter.Write ⟨⟨[1, 2, 3, 4, 5, 6], 6⟩, 10, 4, 2, 0⟩ [7, 8, 9, 7, 8, 9] none
      = (Except.error WriteError.capacityExceeded, ⟨⟨[1, 2, 3, 4, 5, 6], 6⟩, 10, 4, 2, 0⟩) :=
  c3_limited_writer_rejects_over_limit ⟨⟨[1, 2, 3, 4, 5, 6], 6⟩, 10, 4, 2, 0⟩
    [7, 8, 9, 7, 8, 9] none (by decide) (by decide)

/-- C4: for a write within the limit, the unflushed counter grows by the
byte count of the write; when it reaches the flush interval a flush is
issued and, on flush success, the interval is subtracted (the excess
carries over); a flush failure is returned as a hard error from Write
even though the bytes of the triggering write are on the file; below
the interval no flush is issued and the counter keeps the accumulated
value. -/
theorem c4_flushing_writer_cadence (w : LimitedFlushingWriter) (chunk : List Nat)
    (hok : w.mWritingLimit = 0 ∨ w.fd.pos + chunk.length ≤ w.mWritingLimit) :
    (w.mFlushIntervalBytes ≤ w.mUnflushedBytesWritten + chunk.length →
      w.Write chunk none
        = (Except.ok chunk.length,
           { w with fd := ⟨fileWriteAt w.fd.data w.fd.pos chunk, w.fd.pos + chunk.length⟩,
                    mUnflushedBytesWritten :=
                      w.mUnflushedBytesWritten + chunk.length - w.mFlushIntervalBytes,
                    flushesIssued := w.flushesIssued + 1 })
      ∧ ∀ e, w.Write chunk (some e)
        = (Except.error (WriteError.flushFailed e),
           { w with fd := ⟨fileWriteAt w.fd.data w.fd.pos chunk, w.fd.pos + chunk.length⟩,
                    mUnflushedBytesWritten := w.mUnflushedBytesWritten + chunk.length,
                    flushesIssued := w.flushesIssued + 1 }))
    ∧ (w.mUnflushedBytesWritten + chunk.length < w.mFlushIntervalBytes →
      ∀ fe, w.Write chunk fe
        = (Except.ok chunk.length,
           { w with fd := ⟨fileWriteAt w.fd.data w.fd.pos chunk, w.fd.pos + chunk.length⟩,
                    mUnflushedBytesWritten := w.mUnflushedBytesWritten + chunk.length })) := by
  have hno : ¬ (w.mWritingLimit ≠ 0 ∧ w.mWritingLimit < w.fd.pos + chunk.length) := by
    rcases hok with h | h <;> omega
  constructor
  · intro hflush
    constructor
    · unfold LimitedFlushingWriter.Write
      rw [if_neg hno, if_pos hflush]
    · intro e
      unfold LimitedFlushingWriter.Write
      rw [if_neg hno, if_pos hflush]
  · intro hunder fe
    unfold LimitedFlushingWriter.Write
    rw [if_neg hno, if_neg (by omega)]

/-- Witness for C4: interval 4, counter 2, 3-byte write (flush fires,
counter becomes 1), and a separate under-interval configuration. -/
theorem c4_flushing_writer_cadence_witness :
    LimitedFlushingWriter.Write ⟨⟨[], 0⟩, 0, 4, 2, 5⟩ [1, 2, 3] none
      = (Except.ok 3, ⟨⟨fileWriteAt [] 0 [1, 2, 3], 3⟩, 0, 4, 1, 6⟩)
    ∧ LimitedFlushingWriter.Write ⟨⟨[], 0⟩, 0, 4, 2, 5⟩ [1, 2, 3] (some 9)
      = (Except.error (WriteError.flushFailed 9), ⟨⟨fileWriteAt [] 0 [1, 2, 3], 3⟩, 0, 4, 5, 6⟩)
    ∧ LimitedFlushingWriter.Write ⟨⟨[], 0⟩, 0, 4, 0, 5⟩ [1, 2, 3] none
      = (Except.ok 3, ⟨⟨fileWriteAt [] 0 [1, 2, 3], 3⟩, 0, 4, 3, 5⟩) := by
  refine ⟨?_, ?_, ?_⟩
  · have h := (c4_flushing_writer_cadence ⟨⟨[], 0⟩, 0, 4, 2, 5⟩ [1, 2, 3]
      (Or.inl rfl)).1 (by decide)
    simpa using h.1
  · have h := (c4_flushing_writer_cadence ⟨⟨[], 0⟩, 0, 4, 2, 5⟩ [1, 2, 3]
      (Or.inl rfl)).1 (by decide)
    simpa using h.2 9
  · have h := (c4_flushing_writer_cadence ⟨⟨[], 0⟩, 0, 4, 0, 5⟩ [1, 2, 3]
      (Or.inl rfl)).2 (by decide) none
    simpa using h

/-- C5: with volume size 0 (unbounded) and block size B greater than 0, a first
Copy from a file source always succeeds, and re-running the identical
copy in optimized mode on the resulting destination succeeds with
blocksWritten = 0, bytesWritten = 0, blocksOmitted = ceil(L/B) and
bytesTotal = L.  Both runs start from freshly reset statistics: the
engine statistics prev and prev2 left from any earlier invocation are
arbitrary and do not influence either result. -/
theorem c5_rerun_optimized_all_skip (B : Nat) (opt : Bool) (src dstData : List Nat)
    (prev prev2 : Statistics) (hB : 0 < B) :
    (OptimizedWriter.Copy fileOps B 0 opt prev (srcScript B src) ⟨dstData, 0⟩).outcome
        = Except.ok ()
    ∧ (OptimizedWriter.Copy fileOps B 0 true prev2 (srcScript B src)
        (OptimizedWriter.Copy fileOps B 0 opt prev (srcScript B src) ⟨dstData, 0⟩).dst).outcome
        = Except.ok ()
    ∧ (OptimizedWriter.Copy fileOps B 0 true prev2 (srcScript B src)
        (OptimizedWriter.Copy fileOps B 0 opt prev (srcScript B src) ⟨dstData, 0⟩).dst).stats
        = { blocksWritten := 0, blocksOmitted := (src.length + B - 1) / B,
            bytesWritten := 0, bytesTotal := src.length } := by
  obtain ⟨a1, a2, a3, a4⟩ := copyLoop_file_unbounded B opt hB src.length src le_rfl
    dstData 0 0 (List.replicate B 0) (List.replicate B 0) Statistics.zero (Nat.zero_le _)
  have hX : ((⟨(OptimizedWriter.Copy fileOps B 0 opt prev (srcScript B src) ⟨dstData, 0⟩).dst.data,
      (OptimizedWriter.Copy fileOps B 0 opt prev (srcScript B src) ⟨dstData, 0⟩).dst.pos⟩ : FileState)
      = (OptimizedWriter.Copy fileOps B 0 opt prev (srcScript B src) ⟨dstData, 0⟩).dst) := rfl
  have h := copyLoop_file_all_skip B hB src.length src le_rfl
    (OptimizedWriter.Copy fileOps B 0 opt prev (srcScript B src) ⟨dstData, 0⟩).dst.data
    (OptimizedWriter.Copy fileOps B 0 opt prev (srcScript B src) ⟨dstData, 0⟩).dst.pos
    0 (List.replicate B 0) Statistics.zero (by simpa using a3) (by simpa using a4)
  rw [hX] at h
  refine ⟨a1, h.1, ?_⟩
  show (copyLoop fileOps B 0 true (srcScript B src)
      (OptimizedWriter.Copy fileOps B 0 opt prev (srcScript B src) ⟨dstData, 0⟩).dst
      (List.replicate B 0) (List.replicate B 0) 0 Statistics.zero false).stats
    = { blocksWritten := 0, blocksOmitted := (src.length + B - 1) / B,
        bytesWritten := 0, bytesTotal := src.length }
  rw [h.2, chunksOf_length B hB src.length src le_rfl]
  simp [Statistics.zero]

/-- Witness for C5: 3-byte source, block size 2, empty destination,
junk previous statistics: the second run omits ceil(3/2) = 2 blocks. -/
theorem c5_rerun_optimized_all_skip_witness :
    (OptimizedWriter.Copy fileOps 2 0 false ⟨7, 7, 7, 7⟩ (srcScript 2 [1, 2, 3]) ⟨[], 0⟩).outcome
        = Except.ok ()
    ∧ (OptimizedWriter.Copy fileOps 2 0 true ⟨9, 9, 9, 9⟩ (srcScript 2 [1, 2, 3])
        (OptimizedWriter.Copy fileOps 2 0 false ⟨7, 7, 7, 7⟩ (srcScript 2 [1, 2, 3]) ⟨[], 0⟩).dst).outcome
        = Except.ok ()
    ∧ (OptimizedWriter.Copy fileOps 2 0 true ⟨9, 9, 9, 9⟩ (srcScript 2 [1, 2, 3])
        (OptimizedWriter.Copy fileOps 2 0 false ⟨7, 7, 7, 7⟩ (srcScript 2 [1, 2, 3]) ⟨[], 0⟩).dst).stats
        = { blocksWritten := 0, blocksOmitted := 2, bytesWritten := 0, bytesTotal := 3 } := by
  have h := c5_rerun_optimized_all_skip 2 false [1, 2, 3] [] ⟨7, 7, 7, 7⟩ ⟨9, 9, 9, 9⟩
    (by decide)
  simpa using h

/-- C6: for every positive capacity C and block size B, a file source
strictly longer than C makes Copy fail with the too-big error at the
first block whose start position plus the block size crosses C, having
processed bytesTotal = B * (C / B) bytes (the start of that block).
In the concrete instance of a 19-byte source, capacity 10 and block
size 6 onto an empty destination, exactly 1 block and 6 bytes are
written and 0 blocks omitted before the engine stops. -/
theorem c6_copy_fails_tooBig :
    (∀ (B C : Nat) (opt : Bool) (src dstData : List Nat), 0 < B → 0 < C →
      C < src.length →
      (copyFile B C opt src dstData).outcome = Except.error CopyError.tooBig
      ∧ (copyFile B C opt src dstData).stats.bytesTotal = B * (C / B))
    ∧ ((copyFile 6 10 true
          [102, 111, 111, 98, 97, 114, 102, 111, 111, 98, 97, 114, 102, 111, 111, 98, 97, 114, 0]
          []).stats.blocksWritten = 1
       ∧ (copyFile 6 10 true
          [102, 111, 111, 98, 97, 114, 102, 111, 111, 98, 97, 114, 102, 111, 111, 98, 97, 114, 0]
          []).stats.blocksOmitted = 0
       ∧ (copyFile 6 10 true
          [102, 111, 111, 98, 97, 114, 102, 111, 111, 98, 97, 114, 102, 111, 111, 98, 97, 114, 0]
          []).stats.bytesWritten = 6
       ∧ (copyFile 6 10 true
          [102, 111, 111, 98, 97, 114, 102, 111, 111, 98, 97, 114, 102, 111, 111, 98, 97, 114, 0]
          []).outcome = Except.error CopyError.tooBig) := by
  constructor
  · intro B C opt src dstData hB hC hlong
    have h := copyLoop_file_tooBig B C opt hB hC src.length src le_rfl
      dstData 0 0 (List.replicate B 0) (List.replicate B 0) Statistics.zero
      (by omega) (by omega)
    exact ⟨h.1, by have h2 := h.2; simpa [Statistics.zero] using h2⟩
  · exact ⟨rfl, rfl, rfl, rfl⟩

/-- Witness for C6: the general part applied at the concrete scenario
of the claim (19-byte source, capacity 10, block size 6). -/
theorem c6_copy_fails_tooBig_witness :
    (copyFile 6 10 true
      [102, 111, 111, 98, 97, 114, 102, 111, 111, 98, 97, 114, 102, 111, 111, 98, 97, 114, 0]
      []).outcome = Except.error CopyError.tooBig
    ∧ (copyFile 6 10 true
      [102, 111, 111, 98, 97, 114, 102, 111, 111, 98, 97, 114, 102, 111, 111, 98, 97, 114, 0]
      []).stats.bytesTotal = 6 * (10 / 6) := by
  have h := c6_copy_fails_tooBig.1 6 10 true
    [102, 111, 111, 98, 97, 114, 102, 111, 111, 98, 97, 114, 102, 111, 111, 98, 97, 114, 0]
    [] (by decide) (by decide) (by decide)
  exact h

/-- C7: on every destination device, every reader script and every
configuration, a Copy that returns success has consumed exactly
srcConsumed script bytes from the reader and reports them in
bytesTotal, independently of how many blocks were written or skipped. -/
theorem c7_success_bytesTotal {σ : Type} (ops : DstOps σ) (B C : Nat) (opt : Bool)
    (prev : Statistics) (script : List (Except Nat (List Nat))) (dst : σ)
    (h : (OptimizedWriter.Copy ops B C opt prev script dst).outcome = Except.ok ()) :
    (OptimizedWriter.Copy ops B C opt prev script dst).stats.bytesTotal
      = srcConsumed script := by
  have h2 := copyLoop_ok_bytesTotal ops B C opt script dst
    (List.replicate B 0) (List.replicate B 0) 0 Statistics.zero false h
  simpa [Statistics.zero] using h2

/-- Witness for C7: an optimized copy of a 3-byte source in 2-byte
blocks succeeds and reports bytesTotal = 3 = srcConsumed. -/
theorem c7_success_bytesTotal_witness :
    (copyFile 2 0 true [1, 2, 3] []).stats.bytesTotal = srcConsumed (srcScript 2 [1, 2, 3])
    ∧ srcConsumed (srcScript 2 [1, 2, 3]) = 3 :=
  ⟨c7_success_bytesTotal fileOps 2 0 true Statistics.zero (srcScript 2 [1, 2, 3]) ⟨[], 0⟩ rfl,
   rfl⟩

/-- A successful raw read that returned fewer bytes than requested must
have consumed a zero-length transfer (end-of-data) from the script. -/
lemma ioReadAux_short (n : Nat) :
    ∀ (s : List SysRead) (acc r : Nat),
      ioReadAux n s acc = some (Except.ok r) → r < n →
      ∃ pre post, s = pre ++ SysRead.chunk [] :: post := by
  intro s
  induction s with
  | nil => intro acc r h _; simp [ioReadAux] at h
  | cons head rest ih =>
    intro acc r h hr
    cases head with
    | eintr =>
      obtain ⟨pre, post, hp⟩ := ih acc r h hr
      exact ⟨SysRead.eintr :: pre, post, by rw [hp]; rfl⟩
    | fail e => simp [ioReadAux] at h
    | chunk c =>
      rw [ioReadAux] at h
      split_ifs at h with hcond
      · rcases hcond with hc0 | hfull
        · exact ⟨[], rest, by rw [List.length_eq_zero.mp hc0]; rfl⟩
        · simp only [Option.some.injEq, Except.ok.injEq] at h
          omega
      · obtain ⟨pre, post, hp⟩ := ih (acc + c.length) r h hr
        exact ⟨SysRead.chunk c :: pre, post, by rw [hp]; rfl⟩

/-- A clean script (no failure, no end-of-data) delivering exactly the
missing bytes fills the buffer: the read returns the full count. -/
lemma ioReadAux_fill (n : Nat) :
    ∀ (s : List SysRead) (acc : Nat),
      scriptClean s = true → acc + scriptBytes s = n → acc < n →
      ioReadAux n s acc = some (Except.ok n) := by
  intro s
  induction s with
  | nil =>
    intro acc hclean hsum hlt
    rw [scriptBytes] at hsum
    omega
  | cons head rest ih =>
    intro acc hclean hsum hlt
    cases head with
    | eintr =>
      rw [scriptClean] at hclean
      rw [scriptBytes] at hsum
      exact ih acc hclean hsum hlt
    | fail e => rw [scriptClean] at hclean; simp at hclean
    | chunk c =>
      rw [scriptClean, Bool.and_eq_true, decide_eq_true_eq] at hclean
      rw [scriptBytes] at hsum
      rw [ioReadAux]
      by_cases hfull : acc + c.length = n
      · rw [if_pos (Or.inr hfull), hfull]
      · have hc0 : ¬ c.length = 0 := hclean.1
        rw [if_neg (by omega)]
        exact ih (acc + c.length) hclean.2 (by omega) (by omega)

/-- C8: the raw Read primitive is EINTR-transparent (an interruption is
retried with no observable effect), propagates an OS failure as an
error carrying its code, returns fewer bytes than requested only when a
zero-length transfer (end-of-data) occurred, and, given interruptions
and transfers that deliver exactly the requested bytes with no
end-of-data, returns the full requested count. -/
theorem c8_ioRead_retry_contract :
    (∀ (s : List SysRead) (n : Nat), ioRead (SysRead.eintr :: s) n = ioRead s n)
    ∧ (∀ (s : List SysRead) (n e : Nat),
        ioRead (SysRead.fail e :: s) n = some (Except.error e))
    ∧ (∀ (s : List SysRead) (n r : Nat),
        ioRead s n = some (Except.ok r) → r < n →
        ∃ pre post, s = pre ++ SysRead.chunk [] :: post)
    ∧ (∀ (s : List SysRead) (n : Nat), 0 < n → scriptClean s = true →
        scriptBytes s = n → ioRead s n = some (Except.ok n)) := by
  refine ⟨fun s n => rfl, fun s n e => rfl, ?_, ?_⟩
  · intro s n r h hr
    exact ioReadAux_short n s 0 r h hr
  · intro s n hn hclean hsum
    exact ioReadAux_fill n s 0 hclean (by omega) hn

/-- Witness for C8: concrete instances of all four conjuncts. -/
theorem c8_ioRead_retry_contract_witness :
    ioRead [SysRead.eintr, SysRead.chunk [5]] 1 = ioRead [SysRead.chunk [5]] 1
    ∧ ioRead [SysRead.fail 3] 4 = some (Except.error 3)
    ∧ (∃ pre post,
        [SysRead.chunk [7], SysRead.chunk []] = pre ++ SysRead.chunk [] :: post)
    ∧ ioRead [SysRead.chunk [1, 2], SysRead.eintr, SysRead.chunk [3]] 3
        = some (Except.ok 3) :=
  ⟨c8_ioRead_retry_contract.1 [SysRead.chunk [5]] 1,
   c8_ioRead_retry_contract.2.1 [] 4 3,
   c8_ioRead_retry_contract.2.2.1 [SysRead.chunk [7], SysRead.chunk []] 2 1 rfl (by decide),
   c8_ioRead_retry_contract.2.2.2 [SysRead.chunk [1, 2], SysRead.eintr, SysRead.chunk [3]] 3
     (by decide) rfl rfl⟩

/-- C9 (counterexample): the claim states the classifier accepts both
character and block device nodes with the UBI major number.  A
character device node with the UBI major (10) is classified false: the
code tests S_ISBLK only. -/
theorem c9_counterexample_char_device :
    IsUBIDevice (Except.ok ⟨false, true, UBIMajorDevNo⟩) = Except.ok false
    ∧ (⟨false, true, UBIMajorDevNo⟩ : StatBuf).isChr = true
    ∧ (⟨false, true, UBIMajorDevNo⟩ : StatBuf).rdevMajor = UBIMajorDevNo :=
  ⟨rfl, rfl, rfl⟩

/-- C9 (amended): on a successful stat, IsUBIDevice reports true exactly
when the path is a BLOCK device whose rdev major is the reserved UBI
major number 10; character devices are never classified as UBI. -/
theorem c9_ubi_block_only (sb : StatBuf) :
    IsUBIDevice (Except.ok sb) = Except.ok true
      ↔ (sb.isBlk = true ∧ sb.rdevMajor = UBIMajorDevNo) := by
  simp [IsUBIDevice]

/-- C10: an optimized Copy against a destination whose every read fails
with error e is indistinguishable — outcome, statistics and final
destination state — from a non-optimized Copy on the same regular
file: the failed compare read is silently treated as a mismatch, the
engine re-seeks and writes the block, and a compare-read failure alone
never makes Copy return an error. -/
theorem c10_compare_read_failure_harmless (e B C : Nat) (prev prev2 : Statistics)
    (script : List (Except Nat (List Nat))) (dst : FileState) :
    OptimizedWriter.Copy (errReadOps e) B C true prev script dst
      = OptimizedWriter.Copy fileOps B C false prev2 script dst :=
  copyLoop_errRead_eq e B C script dst (List.replicate B 0) (List.replicate B 0)
    0 Statistics.zero false
